import Mathlib

/-!
Verification of the WhatsApp chat-export parsing core of the micro-apps
repository: a shallow embedding of `whatsapp_photo_extractor.py` and
`whatsapp_timeline_generator.py` (the parsing, date handling, photo
association, date filtering, filename sanitization, theme extraction and
yearly bucketing functions), with theorems settling the specification's
claims about them.

Modelling conventions:
- Python strings are Lean `String`s (lists of Unicode scalar values, as in
  Python 3).
- Python `datetime` values constructed by this code always have a zero time
  component, so they are modelled as a calendar date `SimpleDate`; `datetime`
  comparison is lexicographic on (year, month, day).
- Fallible constructs (`try`/`except`, `re.match` returning `None`) are
  modelled with `Option`.
- The regular expressions of the source are compiled by hand into
  deterministic character-list matchers; each matcher's doc comment records
  the backtracking analysis showing the deterministic version is equivalent.
- Character classes (`\d`, `\w`, `\s`, `str.strip`, `int()` digits) are
  modelled over their ASCII behaviour plus the specific non-ASCII characters
  the source mentions (U+202F, U+200E); chat exports and all inputs in the
  claims are within this fragment.
-/

namespace MicroApps

/-- ASCII decimal digit, the `\d`/`int()` digit class used by the source's
regexes (48 = '0', 57 = '9'). -/
def isDig (c : Char) : Bool := decide (48 ≤ c.toNat ∧ c.toNat ≤ 57)

/-- Whitespace stripped by Python `str.strip()` and matched by `\s`
(ASCII whitespace, the C1 control block, NEL, NBSP and the Unicode space
separators, U+202F among them). -/
def isPySpace (c : Char) : Bool :=
  decide (c.toNat ∈ [32, 9, 10, 13, 11, 12, 28, 29, 30, 31, 133, 160, 5760,
    8192, 8193, 8194, 8195, 8196, 8197, 8198, 8199, 8200, 8201, 8202,
    8232, 8233, 8239, 8287, 12288])

/-- Word character for Python `\w` (ASCII letters, digits, underscore; the
inputs of this development contain no non-ASCII word characters). -/
def isWordChar (c : Char) : Bool :=
  decide ((65 ≤ c.toNat ∧ c.toNat ≤ 90) ∨ (97 ≤ c.toNat ∧ c.toNat ≤ 122) ∨
    (48 ≤ c.toNat ∧ c.toNat ≤ 57) ∨ c = '_')

/-- Strip characters satisfying `p` from both ends of a character list. -/
def stripWhile (p : Char → Bool) (l : List Char) : List Char :=
  ((l.dropWhile p).reverse.dropWhile p).reverse

/-- Python `str.strip()` with no argument: strip whitespace from both ends. -/
def pyStrip (s : String) : String := String.mk (stripWhile isPySpace s.toList)

/-- Python `str.strip('\r\n ')` as used by the timeline parser. -/
def isCrNlSpace (c : Char) : Bool := c == '\r' || c == '\n' || c == ' '

/-- The timeline parser's per-line strip: `line.strip('\r\n ')`. -/
def stripCrNlSpace (s : String) : String :=
  String.mk (stripWhile isCrNlSpace s.toList)

/-- Helper for `splitOnChar`: accumulate the current piece (reversed). -/
def splitOnCharAux (sep : Char) (cur : List Char) : List Char → List (List Char)
  | [] => [cur.reverse]
  | c :: rest =>
    if c == sep then cur.reverse :: splitOnCharAux sep [] rest
    else splitOnCharAux sep (c :: cur) rest

/-- Python `str.split(sep)` for a one-character separator (`''.split('/') =
['']`, `'a//b'.split('/') = ['a', '', 'b']`). -/
def splitOnChar (sep : Char) (s : String) : List String :=
  (splitOnCharAux sep [] s.toList).map String.mk

/-- Numeric value of an ASCII digit character. -/
def digitVal (c : Char) : Nat := c.toNat - 48

/-- Value of a digit string, most significant digit first. -/
def digitsVal (l : List Char) : Nat :=
  l.foldl (fun a c => 10 * a + digitVal c) 0

/-- Tail of Python `int()` digit parsing: after one digit has been read,
accept further digits with single underscores allowed between digits
(`int('1_0') = 10`, but `int('1__0')` and `int('1_')` raise). -/
def digitsURestVal (acc : Nat) : List Char → Option Nat
  | [] => some acc
  | c :: cs =>
    if c == '_' then
      match cs with
      | [] => none
      | c2 :: cs2 =>
        if isDig c2 then digitsURestVal (10 * acc + digitVal c2) cs2 else none
    else if isDig c then digitsURestVal (10 * acc + digitVal c) cs
    else none

/-- Digit part of Python `int()`: a nonempty digit sequence, underscores
allowed between digits. -/
def parseDigitsU : List Char → Option Nat
  | [] => none
  | c :: cs => if isDig c then digitsURestVal (digitVal c) cs else none

/-- Sign-and-digits part of Python `int()`, after whitespace stripping. -/
def pyIntCore : List Char → Option Int
  | [] => none
  | c :: cs =>
    if c == '+' then (parseDigitsU cs).map Int.ofNat
    else if c == '-' then (parseDigitsU cs).map (fun n => -(Int.ofNat n))
    else (parseDigitsU (c :: cs)).map Int.ofNat

/-- Python `int(str)`: optional surrounding whitespace, optional single sign,
then digits with optional single underscores between them; any other input
raises `ValueError` (modelled as `none`). Non-ASCII decimal digits are not
modelled; no input of this development contains them. -/
def pyInt (s : String) : Option Int :=
  pyIntCore (stripWhile isPySpace s.toList)

/-- Calendar date; the `datetime` values built by this code always carry a
zero time of day, so year/month/day is the whole state. -/
structure SimpleDate where
  year : Nat
  month : Nat
  day : Nat
deriving DecidableEq, Repr

/-- Python `datetime` comparison, restricted to the midnight values this code
constructs: lexicographic on (year, month, day). -/
def dateLt (a b : SimpleDate) : Bool :=
  decide (a.year < b.year ∨ (a.year = b.year ∧ (a.month < b.month ∨
    (a.month = b.month ∧ a.day < b.day))))

/-- Non-strict counterpart of `dateLt`. -/
def dateLe (a b : SimpleDate) : Bool := dateLt a b || a == b

/-- Gregorian leap-year rule, as in Python's `datetime`. -/
def isLeapYear (y : Int) : Bool := y % 4 == 0 && (y % 100 != 0 || y % 400 == 0)

/-- Days in a month, as validated by Python's `datetime` constructor. -/
def daysInMonth (y m : Int) : Int :=
  if m == 2 then (if isLeapYear y then 29 else 28)
  else if m == 4 || m == 6 || m == 9 || m == 11 then 30
  else 31

/-- Python `datetime(year, month, day)`: `none` models the `ValueError`
raised on an out-of-range component (MINYEAR = 1, MAXYEAR = 9999). -/
def mkDatetime (y m d : Int) : Option SimpleDate :=
  if 1 ≤ y ∧ y ≤ 9999 ∧ 1 ≤ m ∧ m ≤ 12 ∧ 1 ≤ d ∧ d ≤ daysInMonth y m then
    some ⟨y.toNat, m.toNat, d.toNat⟩
  else none

/-- Final step of `parse_message_date` (identical in
whatsapp_photo_extractor.py lines 19-33 and whatsapp_timeline_generator.py
lines 20-32): `datetime(int(year), int(month), int(day))` on the expanded
year string, with any `ValueError` from `int()` or `datetime` swallowed
into `None`. -/
def parse_with_year2 (day month year2 : String) : Option SimpleDate :=
  match pyInt year2, pyInt month, pyInt day with
  | some y, some m, some d => mkDatetime y m d
  | _, _, _ => none

/-- The two-digit-year expansion step of `parse_message_date`, before the
`datetime` construction (`parse_with_year2`). -/
def parse_message_date_parts (day month year : String) : Option SimpleDate :=
  match (if year.length = 2 then
           match pyInt year with
           | none => none
           | some y => some (if y < 50 then "20" ++ year else "19" ++ year)
         else some year) with
  | none => none
  | some year2 => parse_with_year2 day month year2

/-- Top level of `parse_message_date`: the split-on-'/' arity test. -/
def parse_message_date (date_str : String) : Option SimpleDate :=
  match splitOnChar '/' date_str with
  | [day, month, year] => parse_message_date_parts day month year
  | _ => none

/-- Message record as built by `parse_chat_messages` (both variants):
`image_filename` is absent until `find_photo_messages` sets it. -/
structure Message where
  date : String
  time : String
  sender : String
  content : String
  full_content : String
  datetime : Option SimpleDate
  image_filename : Option String := none
deriving DecidableEq, Repr

/-- Maximal digit run at the head of the list, and the remainder. -/
def digitRun (cs : List Char) : List Char × List Char :=
  (cs.takeWhile isDig, cs.dropWhile isDig)

/-- The extractor's header regex (whatsapp_photo_extractor.py line 45)
compiled by hand:

  (dd), (dd) = one or two digits, (yy..yyyy) = two to four digits,
  date `dd/dd/yyyy`, literal ", ", time `d{1,2}:d{2}`, optional U+202F,
  optional "am"/"pm", literal " - ", sender = nonempty run of non-colon
  characters, literal ": ", nonempty content, end of line.

Backtracking analysis making the greedy runs exact: a counted digit group
is always followed in the pattern by a non-digit literal ('/', ',', ':',
' ', ']'), so the group matches exactly when the maximal digit run at that
position has an admissible length and the literal follows — shorter
backtracked attempts would place a digit where the literal is required.
The two optional groups are decided by their next character (U+202F,
'a'/'p', or the literal ' '), so greedy consumption is also exact. The
sender group `[^:]+` cannot cross a colon, so it matches exactly the
nonempty run up to the first colon, which must be followed by a space.
Returns the raw groups (date, time, sender, content). -/
def matchExtractorHeader (line : String) : Option (String × String × String × String) :=
  let cs := line.toList
  let (d1, r1) := digitRun cs
  if d1.length = 0 ∨ 2 < d1.length then none else
  match r1 with
  | '/' :: r1b =>
    let (d2, r2) := digitRun r1b
    if d2.length = 0 ∨ 2 < d2.length then none else
    match r2 with
    | '/' :: r2b =>
      let (yr, r3) := digitRun r2b
      if yr.length < 2 ∨ 4 < yr.length then none else
      match r3 with
      | ',' :: ' ' :: r4 =>
        let (hh, r5) := digitRun r4
        if hh.length = 0 ∨ 2 < hh.length then none else
        match r5 with
        | ':' :: m1 :: m2 :: r6 =>
          if ¬ (isDig m1 ∧ isDig m2) then none else
          let (nb, r7) : List Char × List Char :=
            match r6 with
            | ' ' :: t => ([' '], t)
            | t => ([], t)
          let (ap, r8) : List Char × List Char :=
            match r7 with
            | 'a' :: 'm' :: t => (['a', 'm'], t)
            | 'p' :: 'm' :: t => (['p', 'm'], t)
            | t => ([], t)
          match r8 with
          | ' ' :: '-' :: ' ' :: r9 =>
            let snd := r9.takeWhile (fun c => c ≠ ':')
            let r10 := r9.dropWhile (fun c => c ≠ ':')
            if snd.length = 0 then none else
            match r10 with
            | ':' :: ' ' :: c0 :: ctRest =>
              some (String.mk (d1 ++ '/' :: d2 ++ '/' :: yr),
                    String.mk (hh ++ ':' :: m1 :: m2 :: (nb ++ ap)),
                    String.mk snd,
                    String.mk (c0 :: ctRest))
            | _ => none
          | _ => none
        | _ => none
      | _ => none
    | _ => none
  | _ => none

/-- The timeline generator's header regex (whatsapp_timeline_generator.py
line 43) compiled by hand, same analysis as `matchExtractorHeader`:
literal '[', date `dd/dd/yyyy` with the year exactly four digits, literal
", ", time `d{1,2}:d{2}:d{2}`, optional U+202F, optional "am"/"pm", literal
"] ", sender up to the first colon, literal ": ", nonempty content. -/
def matchTimelineHeader (line : String) : Option (String × String × String × String) :=
  match line.toList with
  | '[' :: cs =>
    let (d1, r1) := digitRun cs
    if d1.length = 0 ∨ 2 < d1.length then none else
    match r1 with
    | '/' :: r1b =>
      let (d2, r2) := digitRun r1b
      if d2.length = 0 ∨ 2 < d2.length then none else
      match r2 with
      | '/' :: y1 :: y2 :: y3 :: y4 :: r3 =>
        if ¬ (isDig y1 ∧ isDig y2 ∧ isDig y3 ∧ isDig y4) then none else
        match r3 with
        | ',' :: ' ' :: r4 =>
          let (hh, r5) := digitRun r4
          if hh.length = 0 ∨ 2 < hh.length then none else
          match r5 with
          | ':' :: m1 :: m2 :: ':' :: s1 :: s2 :: r6 =>
            if ¬ (isDig m1 ∧ isDig m2 ∧ isDig s1 ∧ isDig s2) then none else
            let (nb, r7) : List Char × List Char :=
              match r6 with
              | ' ' :: t => ([' '], t)
              | t => ([], t)
            let (ap, r8) : List Char × List Char :=
              match r7 with
              | 'a' :: 'm' :: t => (['a', 'm'], t)
              | 'p' :: 'm' :: t => (['p', 'm'], t)
              | t => ([], t)
            match r8 with
            | ']' :: ' ' :: r9 =>
              let snd := r9.takeWhile (fun c => c ≠ ':')
              let r10 := r9.dropWhile (fun c => c ≠ ':')
              if snd.length = 0 then none else
              match r10 with
              | ':' :: ' ' :: c0 :: ctRest =>
                some (String.mk (d1 ++ '/' :: d2 ++ '/' :: [y1, y2, y3, y4]),
                      String.mk (hh ++ ':' :: m1 :: m2 :: ':' :: s1 :: s2 :: (nb ++ ap)),
                      String.mk snd,
                      String.mk (c0 :: ctRest))
              | _ => none
            | _ => none
          | _ => none
        | _ => none
      | _ => none
    | _ => none
  | _ => none

/-- Python `time_str.replace(' ', ' ')`: single-character replace. -/
def replaceNnbsp (s : String) : String :=
  String.mk (s.toList.map (fun c => if c == ' ' then ' ' else c))

/-- Message record built from the four matched groups (both parsers build an
identical record: sender and content stripped, U+202F in the time replaced
by a plain space, `full_content` starting as `content`, `datetime` from
`parse_message_date`). -/
def mkParsedMessage (d t s c : String) : Message :=
  { date := d,
    time := replaceNnbsp t,
    sender := pyStrip s,
    content := pyStrip c,
    full_content := pyStrip c,
    datetime := parse_message_date d }

/-- Apply `f` to the last element of a list, if any: the Python code mutates
`current_message`, which is always the most recently appended record. -/
def updateLast (f : Message → Message) : List Message → List Message
  | [] => []
  | [m] => [f m]
  | m :: ms => m :: updateLast f ms

/-- Continuation handling: `current_message['full_content'] += '\n' + line`. -/
def appendContinuation (line : String) (m : Message) : Message :=
  { m with full_content := m.full_content ++ "\n" ++ line }

/-- One loop iteration of the extractor's `parse_chat_messages` (lines
49-74): strip the line, skip it when empty, open a new message on a header
match, otherwise append the line to the open message when one exists. -/
def parseStepE (messages : List Message) (rawLine : String) : List Message :=
  let line := pyStrip rawLine
  if line = "" then messages
  else
    match matchExtractorHeader line with
    | some (d, t, s, c) => messages ++ [mkParsedMessage d t s c]
    | none => updateLast (appendContinuation line) messages

/-- `parse_chat_messages` of whatsapp_photo_extractor.py (lines 35-76):
split the export text on newlines and fold `parseStepE` over the lines. -/
def parse_chat_messages (chat_content : String) : List Message :=
  (splitOnChar '\n' chat_content).foldl parseStepE []

/-- Python `line.replace('‎', '')`: drop every left-to-right mark. -/
def removeLRM (s : String) : String :=
  String.mk (s.toList.filter (fun c => c ≠ '‎'))

/-- One loop iteration of the timeline generator's `parse_chat_messages`
(lines 47-71): strip '\r', '\n', ' ' from the ends, skip the line when that
leaves nothing, remove left-to-right marks, then match; a non-matching line
is a continuation only when a message is open and the line is still
nonempty after the mark removal. -/
def parseStepT (messages : List Message) (rawLine : String) : List Message :=
  let line0 := stripCrNlSpace rawLine
  if line0 = "" then messages
  else
    let line := removeLRM line0
    match matchTimelineHeader line with
    | some (d, t, s, c) => messages ++ [mkParsedMessage d t s c]
    | none =>
      if line = "" then messages
      else updateLast (appendContinuation line) messages

/-- `parse_chat_messages` of whatsapp_timeline_generator.py (lines 34-73). -/
def parse_chat_messages_timeline (chat_content : String) : List Message :=
  (splitOnChar '\n' chat_content).foldl parseStepT []

/-- Contiguous-substring test, Python's `needle in haystack` on `str`
(true for an empty needle). -/
def containsSub (needle : List Char) : List Char → Bool
  | [] => needle.isEmpty
  | c :: rest => needle.isPrefixOf (c :: rest) || containsSub needle rest

/-- String version of `containsSub`. -/
def strContains (s sub : String) : Bool := containsSub sub.toList s.toList

/-- Match the pattern `IMG-` + eight digits + `-WA` + four digits + `.jpg`
at the head of the list, returning the matched characters. All counts are
exact, so no backtracking exists and the matched span is determined. -/
def matchImgAt (cs : List Char) : Option (List Char) :=
  if ("IMG-".toList).isPrefixOf cs then
    let r1 := cs.drop 4
    let d8 := r1.take 8
    if d8.length = 8 ∧ d8.all isDig then
      let r2 := r1.drop 8
      if ("-WA".toList).isPrefixOf r2 then
        let r3 := r2.drop 3
        let d4 := r3.take 4
        if d4.length = 4 ∧ d4.all isDig then
          let r4 := r3.drop 4
          if (".jpg".toList).isPrefixOf r4 then
            some ("IMG-".toList ++ d8 ++ "-WA".toList ++ d4 ++ ".jpg".toList)
          else none
        else none
      else none
    else none
  else none

/-- Python `re.search` of the filename pattern: first match, scanning
positions left to right. -/
def searchImg : List Char → Option String
  | [] => none
  | c :: rest =>
    match matchImgAt (c :: rest) with
    | some m => some (String.mk m)
    | none => searchImg rest

/-- Body of the extractor's `find_photo_messages` loop (lines 82-91) for one
message: when `'(file attached)'` occurs in `content` or `full_content`,
search `content` (only) for the filename pattern; on success return the
message with `image_filename` set, otherwise nothing. -/
def photoCheck (m : Message) : Option Message :=
  if strContains m.content "(file attached)" ∨ strContains m.full_content "(file attached)" then
    match searchImg m.content.toList with
    | some fn => some { m with image_filename := some fn }
    | none => none
  else none

/-- `find_photo_messages` of whatsapp_photo_extractor.py (lines 78-93): the
returned `photo_messages` list. -/
def find_photo_messages (messages : List Message) : List Message :=
  messages.filterMap photoCheck

/-- The input list as it stands after `find_photo_messages` ran: the Python
loop mutates the matched message dicts in place (setting `image_filename`),
leaving the others untouched. -/
def find_photo_messages_upd (messages : List Message) : List Message :=
  messages.map (fun m => (photoCheck m).getD m)

/-- Retention test of `filter_messages_by_date` for a dated message:
`include_message` stays true unless the date is before a supplied start
bound or after a supplied end bound. -/
def withinBounds (start_date end_date : Option SimpleDate) (d : SimpleDate) : Bool :=
  (match start_date with | some s => !(dateLt d s) | none => true) &&
  (match end_date with | some e => !(dateLt e d) | none => true)

/-- `filter_messages_by_date` of whatsapp_photo_extractor.py (lines
95-118): identity when both bounds are absent; otherwise keep the dated
messages within bounds, dropping every message without a parsed date. -/
def filter_messages_by_date (messages : List Message)
    (start_date end_date : Option SimpleDate) : List Message :=
  if start_date = none ∧ end_date = none then messages
  else
    messages.filter (fun m =>
      match m.datetime with
      | none => false
      | some d => withinBounds start_date end_date d)

/-- Match, at the head of the list, the pattern removed by
`re.sub(r'IMG-\d{8}-WA\d{4}\.jpg \(file attached\)', '', text)`: the
filename pattern followed by the literal " (file attached)". Every match
has length exactly 39 (23 filename characters plus 16). -/
def matchImgAttachedAt (cs : List Char) : Bool :=
  match matchImgAt cs with
  | some _ => (" (file attached)".toList).isPrefixOf (cs.drop 23)
  | none => false

/-- Fuel-indexed helper for `removeImgAttached` (structural recursion on the
fuel, so that the function reduces inside the kernel): with `fuel` at least
the list length the fuel is never exhausted, since every step consumes at
least one character. -/
def removeImgAttachedFuel : Nat → List Char → List Char
  | 0, _ => []
  | _ + 1, [] => []
  | fuel + 1, c :: rest =>
    if matchImgAttachedAt (c :: rest) then removeImgAttachedFuel fuel ((c :: rest).drop 39)
    else c :: removeImgAttachedFuel fuel rest

/-- The `re.sub(..., '', text)` pass shared by `extract_descriptive_words`,
`extract_themes_from_text` and the caption builders: scan left to right,
deleting each (non-overlapping) match of the fixed-width pattern. -/
def removeImgAttached (cs : List Char) : List Char :=
  removeImgAttachedFuel cs.length cs

/-- Maximal runs of word characters: `re.findall(r'\b\w+\b', text)` (with
`\w+` maximal, the word boundaries are automatic). Accumulator-passing
single pass; `cur` holds the run being read, reversed. -/
def wordRunsAux (cur : List Char) : List Char → List (List Char)
  | [] => if cur.isEmpty then [] else [cur.reverse]
  | c :: rest =>
    if isWordChar c then wordRunsAux (c :: cur) rest
    else if cur.isEmpty then wordRunsAux [] rest
    else cur.reverse :: wordRunsAux [] rest

/-- All maximal word-character runs of a character list. -/
def wordRuns (cs : List Char) : List (List Char) := wordRunsAux [] cs

/-- Python `str.lower()` (ASCII; no input here contains cased non-ASCII). -/
def strLower (s : String) : String := String.mk (s.toList.map Char.toLower)

/-- `re.findall(r'\b\w{4,}\b', s)`: maximal word runs of length at least 4
(a shorter run cannot contain a match of `\b\w{4,}\b`, and a longer run is
matched whole). -/
def findWords4 (s : String) : List String :=
  ((wordRuns s.toList).filter (fun r => decide (4 ≤ r.length))).map String.mk

/-- Stop-word set of `extract_descriptive_words` (whatsapp_photo_extractor.py
lines 137-143; a Python set, so the duplicated 'her' collapses). -/
def edwStopWords : List String :=
  ["the", "a", "an", "and", "or", "but", "in", "on", "at", "to", "for", "of", "with",
   "by", "from", "as", "is", "was", "are", "were", "be", "been", "have", "has", "had",
   "do", "does", "did", "will", "would", "could", "should", "may", "might", "must",
   "i", "you", "he", "she", "it", "we", "they", "me", "him", "her", "us", "them",
   "my", "your", "his", "its", "our", "their", "this", "that", "these", "those"]

/-- Python `' '.join(words)`. -/
def joinWithSpace : List String → String
  | [] => ""
  | [w] => w
  | w :: ws => w ++ " " ++ joinWithSpace ws

/-- The pre-truncation join of `extract_descriptive_words` (lines 146-160),
on the already stripped text: find the lower-cased words, keep those of
length at least 2 that are not stop words; when none survive fall back to
the first 3 raw words of the unfiltered text, or the literal 'NoText' when
the text has no words at all; join with single spaces. -/
def descriptiveJoin (stripped : String) : String :=
  let ws := (wordRuns (strLower stripped).toList).map String.mk
  let dws := ws.filter (fun w => decide (2 ≤ w.length) && !(edwStopWords.contains w))
  let dws2 := if dws.isEmpty then
                (let raw := (wordRuns stripped.toList).map String.mk
                 if raw.isEmpty then ["NoText"] else raw.take 3)
              else dws
  joinWithSpace dws2

/-- Python `truncated.rfind(' ')`: index of the last space, if any. -/
def lastIdxOf (ch : Char) : List Char → Option Nat
  | [] => none
  | a :: rest =>
    match lastIdxOf ch rest with
    | some i => some (i + 1)
    | none => if a == ch then some 0 else none

/-- Truncation step of `extract_descriptive_words` (lines 161-170): when the
join exceeds `max_chars`, cut the first `max_chars` characters back to the
last space when that space lies strictly beyond 70 percent of the span,
otherwise keep the hard cut. The source compares `last_space >
max_chars * 0.7` in floating point; for the only call site `max_chars = 15`
the product is exactly 10.5, and the integer comparison `10 * i > 7 *
max_chars` below coincides with it (`rfind`'s -1 for a missing space is the
`none` branch, and -1 > 10.5 is false). -/
def edwTruncate (result : String) (max_chars : Nat) : String :=
  if max_chars < result.length then
    match lastIdxOf ' ' (result.toList.take max_chars) with
    | some i =>
      if 7 * max_chars < 10 * i then String.mk ((result.toList.take max_chars).take i)
      else String.mk (result.toList.take max_chars)
    | none => String.mk (result.toList.take max_chars)
  else result

/-- `extract_descriptive_words` of whatsapp_photo_extractor.py (lines
127-172): remove attachment references, strip; 'NoText' when nothing is
left; otherwise join the surviving descriptive words and truncate, with
'NoText' again guarding an empty result. -/
def extract_descriptive_words (text : String) (max_chars : Nat) : String :=
  if pyStrip (String.mk (removeImgAttached text.toList)) = "" then "NoText"
  else if edwTruncate (descriptiveJoin (pyStrip (String.mk (removeImgAttached text.toList)))) max_chars = ""
    then "NoText"
  else edwTruncate (descriptiveJoin (pyStrip (String.mk (removeImgAttached text.toList)))) max_chars

/-- The characters removed by `re.sub(r'[<>:"/\\|?*]', '', ...)`. -/
def isForbiddenFilenameChar (c : Char) : Bool :=
  (['<', '>', ':', '"', '/', '\\', '|', '?', '*']).contains c

/-- The characters replaced by `re.sub(r'[\r\n\t]', ' ', ...)`. -/
def isCrNlTab (c : Char) : Bool := c == '\r' || c == '\n' || c == '\t'

/-- Helper for `collapseSpaces`: `prevSpace` records whether the previous
character belonged to a whitespace run already replaced. -/
def collapseSpacesAux (prevSpace : Bool) : List Char → List Char
  | [] => []
  | c :: rest =>
    if isPySpace c then
      if prevSpace then collapseSpacesAux true rest
      else ' ' :: collapseSpacesAux true rest
    else c :: collapseSpacesAux false rest

/-- `re.sub(r'\s+', ' ', ...)`: each maximal whitespace run becomes one
space. -/
def collapseSpaces (cs : List Char) : List Char := collapseSpacesAux false cs

/-- First sanitization pass: `re.sub(r'[<>:"/\\|?*]', '', ...)`. -/
def dropForbidden (s : String) : String :=
  String.mk (s.toList.filter (fun c => !(isForbiddenFilenameChar c)))

/-- Second sanitization pass: `re.sub(r'[\r\n\t]', ' ', ...)`. -/
def crNlTabToSpace (s : String) : String :=
  String.mk (s.toList.map (fun c => if isCrNlTab c then ' ' else c))

/-- Third sanitization pass: `re.sub(r'\s+', ' ', ...)`. -/
def collapseWs (s : String) : String := String.mk (collapseSpaces s.toList)

/-- `sanitize_text_for_filename` of whatsapp_photo_extractor.py (lines
174-183): descriptive words with `max_chars = 15`, then drop the filename-
invalid characters, turn CR/LF/TAB into spaces, collapse whitespace runs,
strip, and fall back to 'NoText' when nothing remains. -/
def sanitize_text_for_filename (text : String) : String :=
  if pyStrip (collapseWs (crNlTabToSpace (dropForbidden (extract_descriptive_words text 15)))) = ""
    then "NoText"
  else pyStrip (collapseWs (crNlTabToSpace (dropForbidden (extract_descriptive_words text 15))))

/-- Stop-word set of `extract_themes_from_text`
(whatsapp_timeline_generator.py lines 124-127). -/
def themeStopWords : List String :=
  ["that", "this", "with", "from", "they", "were", "been", "have",
   "will", "your", "what", "when", "where", "there", "their"]

/-- Python `str.capitalize()`: first character upper-cased, the rest
lower-cased (ASCII). -/
def pyCapitalize (s : String) : String :=
  match s.toList with
  | [] => ""
  | c :: rest => String.mk (c.toUpper :: rest.map Char.toLower)

/-- `extract_themes_from_text` of whatsapp_timeline_generator.py (lines
110-133): remove attachment references, lower-case and strip; empty text
gives no themes; otherwise loop over the FIRST TEN words of length at least
4 (`words[:10]`), appending the capitalized word when it is not a stop word
(the cap is applied before the stop-word filter). -/
def extract_themes_from_text (text : String) : List String :=
  let t1 := String.mk (removeImgAttached text.toList)
  let t2 := pyStrip (strLower t1)
  if t2 = "" then []
  else
    let ws := findWords4 t2
    (ws.take 10).foldl (fun acc w =>
      if !(themeStopWords.contains w) && decide (4 ≤ w.length) then acc ++ [pyCapitalize w]
      else acc) []

/-- Modelled from the claim C8 wording (for comparison with the source's
`extract_themes_from_text`): "the first 10 surviving words of length ≥ 4
that remain after dropping the fixed stop-word set, each capitalized" —
the stop-word filter applied BEFORE the 10-word cap. -/
def themes_spec (text : String) : List String :=
  let t1 := String.mk (removeImgAttached text.toList)
  let t2 := pyStrip (strLower t1)
  if t2 = "" then []
  else
    let ws := findWords4 t2
    ((ws.filter (fun w => !(themeStopWords.contains w))).take 10).map pyCapitalize

/-- Append a dated message to its year's entry of the grouping built by
`organize_by_year`'s `defaultdict` (insertion-ordered, as Python dicts
are): extend the existing entry or append a new one at the end. Only the
`photos` list of each year's record is modelled: `total_messages` is
incremented exactly when a photo is appended (so it always equals the
list's length), and the month set, sender set, per-year theme counter,
randomized representative-photo selection (`random.randint`) and summary
string are not referenced by any claim. -/
def addToYear (acc : List (Nat × List Message)) (y : Nat) (m : Message) :
    List (Nat × List Message) :=
  match acc with
  | [] => [(y, [m])]
  | (y', l) :: rest =>
    if y' = y then (y', l ++ [m]) :: rest else (y', l) :: addToYear rest y m

/-- The grouping loop of `organize_by_year` (whatsapp_timeline_generator.py
lines 171-186): skip messages without a parsed date, group the rest by
calendar year. -/
def yearsDataAux (acc : List (Nat × List Message)) : List Message → List (Nat × List Message)
  | [] => acc
  | m :: ms =>
    match m.datetime with
    | none => yearsDataAux acc ms
    | some d => yearsDataAux (addToYear acc d.year m) ms

/-- Entry lookup in the grouping (Python `years_data[year]`; every stored
entry is nonempty, so `[]` only means absence). -/
def lookupYear (acc : List (Nat × List Message)) (y : Nat) : List Message :=
  match acc with
  | [] => []
  | (y', l) :: rest => if y' = y then l else lookupYear rest y

/-- One processed year of `organize_by_year`'s output list. `photos` is the
year's full photo-message group (`years_data[year]['photos']`, the input of
the randomized representative selection, which is not modelled). -/
structure YearBucket where
  year : Nat
  photos : List Message
  total_photos : Nat
  total_messages : Nat
deriving DecidableEq, Repr

/-- The per-year record `organize_by_year` appends for a year `y` of the
grouping `yd`. -/
def mkBucket (yd : List (Nat × List Message)) (y : Nat) : YearBucket :=
  { year := y, photos := lookupYear yd y, total_photos := (lookupYear yd y).length,
    total_messages := (lookupYear yd y).length }

/-- `organize_by_year` of whatsapp_timeline_generator.py (lines 161-212):
group the dated photo-messages by year, then emit one record per year in
ascending year order (`sorted(years_data.keys())`, modelled by insertion
sort — the keys are distinct, so any correct sort agrees with Python's). -/
def organize_by_year (msgs : List Message) : List YearBucket :=
  (List.insertionSort (· ≤ ·) ((yearsDataAux [] msgs).map Prod.fst)).map
    (mkBucket (yearsDataAux [] msgs))

/-- The year expansion of the two-digit-year branch (`'20' + year if
int(year) < 50 else '19' + year`), on the numeric value. -/
def expandYY (yy : Nat) : Nat := if yy < 50 then 2000 + yy else 1900 + yy

/-- The C1 example line exactly as the specification quotes it: the
character before "pm" is a plain ASCII space (U+0020). -/
def c1LineAscii : String :=
  "15/11/2019, 4:38 pm - Alice: IMG-20191115-WA0001.jpg (file attached)"

/-- The C1 example line as WhatsApp actually exports it and as the header
regex expects it: a narrow no-break space (U+202F) before "pm". -/
def c1LineExport : String :=
  "15/11/2019, 4:38 pm - Alice: IMG-20191115-WA0001.jpg (file attached)"

/-- Eleven words of length at least 4 whose first is a theme stop word:
ten candidates survive the stop-word filter, but the code caps at the
first ten words before filtering. -/
def c8Text : String := "that aaaa bbbb cccc dddd eeee ffff gggg hhhh iiii jjjj"

/-- The C7 example text. -/
def c7Text : String := "Completed the Main Bridge Support Install (file attached)"

/-- Concrete dated message (year 2019) for witnesses. -/
def mAlice : Message :=
  { date := "15/11/2019", time := "4:38 pm", sender := "Alice",
    content := "hello", full_content := "hello", datetime := some ⟨2019, 11, 15⟩ }

/-- Concrete dated message (year 2020) for witnesses. -/
def mBob : Message :=
  { date := "2/5/2020", time := "9:05", sender := "Bob",
    content := "later", full_content := "later", datetime := some ⟨2020, 5, 2⟩ }

/-- Concrete undated message for witnesses. -/
def mNoDate : Message :=
  { date := "99/99/99", time := "9:05", sender := "Eve",
    content := "undated", full_content := "undated", datetime := none }

/-- Message whose text contains the attachment trigger but no filename
matching the pattern (a non-photo attachment). -/
def c5Msg : Message :=
  { date := "15/11/2019", time := "4:38 pm", sender := "Alice",
    content := "video.mp4 (file attached)",
    full_content := "video.mp4 (file attached)", datetime := some ⟨2019, 11, 15⟩ }

/-- Message whose filename pattern occurs only in a continuation line
(`full_content`), not in the first line (`content`). -/
def c10Msg : Message :=
  { date := "15/11/2019", time := "4:38 pm", sender := "Alice",
    content := "photo below",
    full_content := "photo below\nIMG-20191115-WA0001.jpg (file attached)",
    datetime := some ⟨2019, 11, 15⟩ }

section Theorems

/-! Generic helper lemmas. -/

theorem updateLast_append_singleton (f : Message → Message) (l : List Message) (a : Message) :
    updateLast f (l ++ [a]) = l ++ [f a] := by
  induction l with
  | nil => rfl
  | cons x xs ih =>
    cases xs with
    | nil => rfl
    | cons y ys =>
      show x :: updateLast f (y :: (ys ++ [a])) = x :: (y :: ys ++ [f a])
      rw [show updateLast f (y :: (ys ++ [a])) = updateLast f ((y :: ys) ++ [a]) from rfl, ih]

theorem foldl_guard_append (p : String → Bool) (f : String → String) :
    ∀ (l : List String) (acc : List String),
      l.foldl (fun a w => if p w then a ++ [f w] else a) acc = acc ++ (l.filter p).map f := by
  intro l
  induction l with
  | nil => intro acc; simp
  | cons x xs ih =>
    intro acc
    by_cases h : p x <;> simp [h, ih]

/-! C1. The specification's example line, with its ASCII space before "pm",
does not match the extractor's header regex (which admits only U+202F
there), so it parses to no message at all. -/

/-- C1 (counterexample): on the literal input string of the claim,
`parse_chat_messages` produces no message record, so the pipeline does not
yield one photo message with sender "Alice". -/
theorem c1_photo_line_counterexample :
    parse_chat_messages c1LineAscii = [] ∧
    ¬ ∃ msg, find_photo_messages (parse_chat_messages c1LineAscii) = [msg] ∧
      msg.sender = "Alice" ∧ msg.image_filename = some "IMG-20191115-WA0001.jpg" := by
  refine ⟨by decide, ?_⟩
  rintro ⟨msg, h, -, -⟩
  rw [show find_photo_messages (parse_chat_messages c1LineAscii) = [] from by decide] at h
  exact List.noConfusion h

/-- C1 (amended): with the narrow no-break space the export format actually
uses before "pm", `parse_chat_messages` followed by `find_photo_messages`
yields exactly one record, with sender "Alice" and image filename
"IMG-20191115-WA0001.jpg". -/
theorem c1_photo_line_amended :
    find_photo_messages (parse_chat_messages c1LineExport) =
      [{ date := "15/11/2019", time := "4:38 pm", sender := "Alice",
         content := "IMG-20191115-WA0001.jpg (file attached)",
         full_content := "IMG-20191115-WA0001.jpg (file attached)",
         datetime := some ⟨2019, 11, 15⟩,
         image_filename := some "IMG-20191115-WA0001.jpg" }] := by decide

/-! C8. The code caps at the first ten words BEFORE dropping stop words
(`for word in words[:10]`), the claim states the opposite order. -/

/-- C8 (counterexample): on `c8Text` the code produces 9 themes although 10
non-stop-word candidates of length at least 4 exist; the claimed
filter-before-cap reading (`themes_spec`) would produce 10. -/
theorem c8_themes_counterexample :
    extract_themes_from_text c8Text ≠ themes_spec c8Text ∧
    (extract_themes_from_text c8Text).length = 9 ∧
    (themes_spec c8Text).length = 10 := by decide

/-- C8 (amended): `extract_themes_from_text` applies the 10-word cap before
the stop-word filter: it returns, from the FIRST TEN words of length ≥ 4 of
the processed text, those not in the stop set, each capitalized — so a
message may yield fewer than 10 themes even when it has 10 or more
non-stop-word candidates. -/
theorem c8_themes_cap_before_filter (text : String) :
    extract_themes_from_text text =
      (((findWords4 (pyStrip (strLower (String.mk (removeImgAttached text.toList))))).take 10).filter
        (fun w => !(themeStopWords.contains w) && decide (4 ≤ w.length))).map pyCapitalize := by
  unfold extract_themes_from_text
  by_cases h : pyStrip (strLower (String.mk (removeImgAttached text.toList))) = ""
  · rw [if_pos h, h]
    rfl
  · rw [if_neg h]
    exact foldl_guard_append _ _ _ []

/-! C4. A non-empty line matching neither header grammar is appended (with a
newline separator) to the open message's `full_content`, creating no new
record and changing no other field. -/

/-- C4: in both parser variants, a continuation step on a line that is
nonempty after the variant's cleanup and matches neither header pattern
rewrites only the last (open) message, appending a newline and the cleaned
line to its `full_content`; the message list keeps its length and every
other field of every message is unchanged. -/
theorem c4_continuation_appends (pre : List Message) (M : Message) (L : String)
    (hE1 : pyStrip L ≠ "") (hE2 : matchExtractorHeader (pyStrip L) = none)
    (hT1 : stripCrNlSpace L ≠ "") (hT2 : removeLRM (stripCrNlSpace L) ≠ "")
    (hT3 : matchTimelineHeader (removeLRM (stripCrNlSpace L)) = none) :
    parseStepE (pre ++ [M]) L =
      pre ++ [{ M with full_content := M.full_content ++ "\n" ++ pyStrip L }] ∧
    parseStepT (pre ++ [M]) L =
      pre ++ [{ M with full_content := M.full_content ++ "\n" ++ removeLRM (stripCrNlSpace L) }] := by
  constructor
  · show (if pyStrip L = "" then pre ++ [M]
          else match matchExtractorHeader (pyStrip L) with
               | some (d, t, s, c) => (pre ++ [M]) ++ [mkParsedMessage d t s c]
               | none => updateLast (appendContinuation (pyStrip L)) (pre ++ [M])) = _
    rw [if_neg hE1, hE2]
    exact updateLast_append_singleton _ _ _
  · show (if stripCrNlSpace L = "" then pre ++ [M]
          else match matchTimelineHeader (removeLRM (stripCrNlSpace L)) with
               | some (d, t, s, c) => (pre ++ [M]) ++ [mkParsedMessage d t s c]
               | none =>
                 if removeLRM (stripCrNlSpace L) = "" then pre ++ [M]
                 else updateLast (appendContinuation (removeLRM (stripCrNlSpace L))) (pre ++ [M])) = _
    rw [if_neg hT1, hT3, if_neg hT2]
    exact updateLast_append_singleton _ _ _

/-- C4 witness: a concrete continuation line after one open message, in both
variants. -/
theorem c4_continuation_appends_witness :
    parseStepE ([] ++ [mAlice]) "more text here" =
      [] ++ [{ mAlice with full_content := mAlice.full_content ++ "\n" ++ pyStrip "more text here" }] ∧
    parseStepT ([] ++ [mAlice]) "more text here" =
      [] ++ [{ mAlice with full_content :=
                 mAlice.full_content ++ "\n" ++ removeLRM (stripCrNlSpace "more text here") }] :=
  c4_continuation_appends [] mAlice "more text here"
    (by decide) (by decide) (by decide) (by decide) (by decide)

/-! C5. Attachment trigger without a filename match: the message is silently
excluded and left unmodified (and, everything being total, no error). -/

/-- C5: for a message whose `content` or `full_content` contains
"(file attached)" but whose `content` has no match of the filename pattern,
`photoCheck` yields nothing: the message appears in no `photo_messages`
output and the message list after the pass still carries it unchanged (no
`image_filename` is set). The embedding is total, mirroring that the Python
loop raises nothing on this path. -/
theorem c5_trigger_without_filename_skipped (m : Message) (pre post : List Message)
    (htrig : strContains m.content "(file attached)" = true ∨
             strContains m.full_content "(file attached)" = true)
    (hnomatch : searchImg m.content.toList = none) :
    photoCheck m = none ∧
    find_photo_messages (pre ++ m :: post) =
      find_photo_messages pre ++ find_photo_messages post ∧
    find_photo_messages_upd (pre ++ m :: post) =
      find_photo_messages_upd pre ++ m :: find_photo_messages_upd post := by
  have hpc : photoCheck m = none := by
    unfold photoCheck
    rw [if_pos htrig, hnomatch]
  refine ⟨hpc, ?_, ?_⟩
  · simp [find_photo_messages, List.filterMap_append, hpc]
  · simp [find_photo_messages_upd, hpc]

/-- C5 witness: a non-photo attachment message between two others. -/
theorem c5_trigger_without_filename_skipped_witness :
    photoCheck c5Msg = none ∧
    find_photo_messages ([mAlice] ++ c5Msg :: [mBob]) =
      find_photo_messages [mAlice] ++ find_photo_messages [mBob] ∧
    find_photo_messages_upd ([mAlice] ++ c5Msg :: [mBob]) =
      find_photo_messages_upd [mAlice] ++ c5Msg :: find_photo_messages_upd [mBob] :=
  c5_trigger_without_filename_skipped c5Msg [mAlice] [mBob] (Or.inl (by decide)) (by decide)

/-! C10. The filename is extracted from `content` only, although the trigger
is tested against both `content` and `full_content`. -/

/-- C10: a message whose filename pattern occurs somewhere in
`full_content` but not in `content` is not included in `photo_messages`
and gets no `image_filename`, because `find_photo_messages` searches the
pattern in `content` only. -/
theorem c10_filename_only_from_content (m : Message) (pre post : List Message)
    (_hfull : searchImg m.full_content.toList ≠ none)
    (hcontent : searchImg m.content.toList = none) :
    photoCheck m = none ∧
    find_photo_messages (pre ++ m :: post) =
      find_photo_messages pre ++ find_photo_messages post ∧
    find_photo_messages_upd (pre ++ m :: post) =
      find_photo_messages_upd pre ++ m :: find_photo_messages_upd post := by
  have hpc : photoCheck m = none := by
    unfold photoCheck
    split
    · rw [hcontent]
    · rfl
  refine ⟨hpc, ?_, ?_⟩
  · simp [find_photo_messages, List.filterMap_append, hpc]
  · simp [find_photo_messages_upd, hpc]

/-- C10 witness: the pattern sits in a continuation line only. -/
theorem c10_filename_only_from_content_witness :
    photoCheck c10Msg = none ∧
    find_photo_messages ([mAlice] ++ c10Msg :: [mBob]) =
      find_photo_messages [mAlice] ++ find_photo_messages [mBob] ∧
    find_photo_messages_upd ([mAlice] ++ c10Msg :: [mBob]) =
      find_photo_messages_upd [mAlice] ++ c10Msg :: find_photo_messages_upd [mBob] :=
  c10_filename_only_from_content c10Msg [mAlice] [mBob] (by decide) (by decide)

/-! C3. Date-range filtering. -/

theorem dateLt_false_iff (a b : SimpleDate) : dateLt a b = false ↔ dateLe b a = true := by
  cases a with
  | mk a1 a2 a3 =>
    cases b with
    | mk b1 b2 b3 =>
      simp only [dateLt, dateLe, Bool.or_eq_true, beq_iff_eq, decide_eq_false_iff_not,
        decide_eq_true_eq, SimpleDate.mk.injEq]
      omega

theorem withinBounds_iff (s e : Option SimpleDate) (d : SimpleDate) :
    withinBounds s e d = true ↔
      (∀ sd, s = some sd → dateLe sd d = true) ∧
      (∀ ed, e = some ed → dateLe d ed = true) := by
  cases s <;> cases e <;>
    simp [withinBounds, Bool.not_eq_true', dateLt_false_iff]

/-- C3: with both bounds absent, `filter_messages_by_date` is the identity
(undated messages included); with at least one bound present, a message is
retained exactly when it has a parsed date that is at least a supplied
lower bound and at most a supplied upper bound (both inclusive) — in
particular every message without a parsed date is dropped. -/
theorem c3_filter_messages_by_date (ms : List Message) :
    filter_messages_by_date ms none none = ms ∧
    ∀ s e m, s ≠ none ∨ e ≠ none →
      (m ∈ filter_messages_by_date ms s e ↔
        m ∈ ms ∧ ∃ d, m.datetime = some d ∧
          (∀ sd, s = some sd → dateLe sd d = true) ∧
          (∀ ed, e = some ed → dateLe d ed = true)) := by
  constructor
  · simp [filter_messages_by_date]
  · intro s e m hse
    have hcond : ¬ (s = none ∧ e = none) := by
      rcases hse with h | h <;> exact fun hc => h (by simp [hc.1, hc.2])
    unfold filter_messages_by_date
    rw [if_neg hcond, List.mem_filter]
    cases hd : m.datetime with
    | none => simp [hd]
    | some d =>
      simp only [hd, withinBounds_iff, Option.some.injEq]
      constructor
      · rintro ⟨hm, hw⟩
        exact ⟨hm, d, rfl, hw⟩
      · rintro ⟨hm, d', hd', hw⟩
        cases hd'
        exact ⟨hm, hw⟩

/-- C3 witness: a start bound of 1/1/2020 keeps the 2020 message, drops the
2019 one and the undated one. -/
theorem c3_filter_messages_by_date_witness :
    mBob ∈ filter_messages_by_date [mAlice, mBob, mNoDate] (some ⟨2020, 1, 1⟩) none ∧
    filter_messages_by_date [mAlice, mBob, mNoDate] none none = [mAlice, mBob, mNoDate] :=
  ⟨((c3_filter_messages_by_date [mAlice, mBob, mNoDate]).2 (some ⟨2020, 1, 1⟩) none mBob
      (Or.inl (by decide))).mpr
    ⟨by decide, ⟨2020, 5, 2⟩, rfl, fun sd h => by cases h; decide, fun ed h => by cases h⟩,
   (c3_filter_messages_by_date [mAlice, mBob, mNoDate]).1⟩

/-! C6. `parse_message_date` is total and returns `none` on every
malformed input; it can only raise, never: the embedding is a total
function, and the clauses below show each malformed shape maps to `none`
while every produced date is a valid calendar date. -/

theorem parse_message_date_eq3 (s d m y : String) (h : splitOnChar '/' s = [d, m, y]) :
    parse_message_date s = parse_message_date_parts d m y := by
  unfold parse_message_date
  rw [h]

theorem parse_with_year2_none (d m y2 : String)
    (h : pyInt d = none ∨ pyInt m = none ∨ pyInt y2 = none) :
    parse_with_year2 d m y2 = none := by
  unfold parse_with_year2
  rcases h1 : pyInt y2 with - | yv
  · rfl
  · rcases h2 : pyInt m with - | mv
    · rfl
    · rcases h3 : pyInt d with - | dv
      · rfl
      · rcases h with h | h | h <;> simp_all

theorem mkDatetime_some_valid (y m d : Int) (dt : SimpleDate)
    (hmd : mkDatetime y m d = some dt) :
    1 ≤ dt.year ∧ dt.year ≤ 9999 ∧ 1 ≤ dt.month ∧ dt.month ≤ 12 ∧
    1 ≤ dt.day ∧ (dt.day : Int) ≤ daysInMonth (dt.year : Int) (dt.month : Int) := by
  unfold mkDatetime at hmd
  split at hmd
  · rename_i hcond
    obtain ⟨h1, h2, h3, h4, h5, h6⟩ := hcond
    cases hmd
    have hy : ((y.toNat : Int)) = y := Int.toNat_of_nonneg (by omega)
    have hm : ((m.toNat : Int)) = m := Int.toNat_of_nonneg (by omega)
    have hd : ((d.toNat : Int)) = d := Int.toNat_of_nonneg (by omega)
    refine ⟨?_, ?_, ?_, ?_, ?_, ?_⟩
    · show 1 ≤ y.toNat
      omega
    · show y.toNat ≤ 9999
      omega
    · show 1 ≤ m.toNat
      omega
    · show m.toNat ≤ 12
      omega
    · show 1 ≤ d.toNat
      omega
    · show ((d.toNat : Int)) ≤ daysInMonth ((y.toNat : Int)) ((m.toNat : Int))
      rw [hy, hm, hd]
      exact h6
  · exact Option.noConfusion hmd

theorem parse_with_year2_some_valid (d m y2 : String) (dt : SimpleDate)
    (h : parse_with_year2 d m y2 = some dt) :
    1 ≤ dt.year ∧ dt.year ≤ 9999 ∧ 1 ≤ dt.month ∧ dt.month ≤ 12 ∧
    1 ≤ dt.day ∧ (dt.day : Int) ≤ daysInMonth (dt.year : Int) (dt.month : Int) := by
  unfold parse_with_year2 at h
  rcases h1 : pyInt y2 with - | yv <;> rw [h1] at h
  · exact Option.noConfusion h
  · rcases h2 : pyInt m with - | mv <;> rw [h2] at h
    · exact Option.noConfusion h
    · rcases h3 : pyInt d with - | dv <;> rw [h3] at h
      · exact Option.noConfusion h
      · exact mkDatetime_some_valid yv mv dv dt h

/-! C2 helper lemmas: `pyInt` on plain digit strings. -/

theorem isDig_not_pySpace {c : Char} (h : isDig c = true) : isPySpace c = false := by
  simp only [isDig, decide_eq_true_eq] at h
  simp only [isPySpace, decide_eq_false_iff_not]
  intro hmem
  simp only [List.mem_cons, List.not_mem_nil, or_false] at hmem
  omega

theorem isDig_ne_signs {c : Char} (h : isDig c = true) :
    (c == '+') = false ∧ (c == '-') = false ∧ (c == '_') = false := by
  refine ⟨?_, ?_, ?_⟩ <;>
    · rw [beq_eq_false_iff_ne]
      intro he
      subst he
      exact absurd h (by decide)

theorem dropWhile_pySpace_of_digits {l : List Char} (h : l.all isDig = true) :
    l.dropWhile isPySpace = l := by
  cases l with
  | nil => rfl
  | cons c t =>
    rw [List.all_cons, Bool.and_eq_true] at h
    simp [List.dropWhile_cons, isDig_not_pySpace h.1]

theorem stripWhile_of_digits {l : List Char} (h : l.all isDig = true) :
    stripWhile isPySpace l = l := by
  have h2 : l.reverse.all isDig = true := by
    rw [List.all_eq_true] at h ⊢
    intro c hc
    exact h c (List.mem_reverse.mp hc)
  unfold stripWhile
  rw [dropWhile_pySpace_of_digits h, dropWhile_pySpace_of_digits h2, List.reverse_reverse]

theorem digitsURestVal_digits : ∀ (l : List Char) (acc : Nat), l.all isDig = true →
    digitsURestVal acc l = some (l.foldl (fun a c => 10 * a + digitVal c) acc) := by
  intro l
  induction l with
  | nil => intro acc _; rfl
  | cons c t ih =>
    intro acc h
    rw [List.all_cons, Bool.and_eq_true] at h
    obtain ⟨hc, ht⟩ := h
    obtain ⟨-, -, hu⟩ := isDig_ne_signs hc
    unfold digitsURestVal
    simp only [hu, hc, Bool.false_eq_true, if_false, if_true, List.foldl_cons]
    exact ih _ ht

theorem parseDigitsU_digits (l : List Char) (hne : l ≠ []) (h : l.all isDig = true) :
    parseDigitsU l = some (digitsVal l) := by
  cases l with
  | nil => exact absurd rfl hne
  | cons c t =>
    rw [List.all_cons, Bool.and_eq_true] at h
    obtain ⟨hc, ht⟩ := h
    simp only [parseDigitsU]
    rw [if_pos hc, digitsURestVal_digits t (digitVal c) ht]
    unfold digitsVal
    rw [List.foldl_cons, show 10 * 0 + digitVal c = digitVal c from by omega]

theorem pyInt_digits (s : String) (hne : s.toList ≠ []) (h : s.toList.all isDig = true) :
    pyInt s = some (Int.ofNat (digitsVal s.toList)) := by
  unfold pyInt
  rw [stripWhile_of_digits h]
  rcases hl : s.toList with - | ⟨c, t⟩
  · exact absurd hl hne
  · rw [hl] at h
    rw [List.all_cons, Bool.and_eq_true] at h
    obtain ⟨hc, ht⟩ := h
    obtain ⟨hplus, hminus, -⟩ := isDig_ne_signs hc
    unfold pyIntCore
    simp only [hplus, hminus, Bool.false_eq_true, if_false]
    rw [parseDigitsU_digits (c :: t) (List.cons_ne_nil c t) (by rw [List.all_cons, Bool.and_eq_true]; exact ⟨hc, ht⟩)]
    rfl

theorem toList_append (a b : String) : (a ++ b).toList = a.toList ++ b.toList := rfl

theorem digitVal_le_9 {c : Char} (h : isDig c = true) : digitVal c ≤ 9 := by
  simp only [isDig, decide_eq_true_eq] at h
  unfold digitVal
  omega

theorem digitsVal_two_lt_100 (l : List Char) (h2 : l.length = 2) (h : l.all isDig = true) :
    digitsVal l < 100 := by
  rcases l with - | ⟨a, - | ⟨b, - | c⟩⟩ <;> simp_all
  have ha := digitVal_le_9 h.1
  have hb := digitVal_le_9 h.2
  simp only [digitsVal, List.foldl_cons, List.foldl_nil]
  omega

theorem digitsVal_prefix_two (u v : Char) (l : List Char) (h2 : l.length = 2) :
    digitsVal (u :: v :: l) =
      (10 * digitVal u + digitVal v) * 100 + digitsVal l := by
  rcases l with - | ⟨a, - | ⟨b, - | c⟩⟩ <;> simp_all
  simp only [digitsVal, List.foldl_cons, List.foldl_nil]
  ring

theorem parse_with_year2_digits (ds ms y2 : String)
    (hdsne : ds.toList ≠ []) (hds : ds.toList.all isDig = true)
    (hmsne : ms.toList ≠ []) (hms : ms.toList.all isDig = true)
    (hy2ne : y2.toList ≠ []) (hy2 : y2.toList.all isDig = true) :
    parse_with_year2 ds ms y2 =
      mkDatetime ((digitsVal y2.toList : Int)) ((digitsVal ms.toList : Int))
        ((digitsVal ds.toList : Int)) := by
  unfold parse_with_year2
  rw [pyInt_digits y2 hy2ne hy2, pyInt_digits ms hmsne hms, pyInt_digits ds hdsne hds]
  rfl

/-- C2: for a date string splitting into all-digit day and month parts and
an exactly-two-digit year part, with the month in range and the day in
range for the expanded year, `parse_message_date` yields the date whose
year is `expandYY` of the two-digit value — 2000 + YY when YY < 50 and
1900 + YY when YY ≥ 50. -/
theorem c2_two_digit_year_pivot (s ds ms ys : String)
    (hsplit : splitOnChar '/' s = [ds, ms, ys])
    (hdsne : ds.toList ≠ []) (hds : ds.toList.all isDig = true)
    (hmsne : ms.toList ≠ []) (hms : ms.toList.all isDig = true)
    (hyslen : ys.toList.length = 2) (hys : ys.toList.all isDig = true)
    (hmonth : 1 ≤ digitsVal ms.toList ∧ digitsVal ms.toList ≤ 12)
    (hday : 1 ≤ digitsVal ds.toList ∧
      (digitsVal ds.toList : Int) ≤
        daysInMonth (expandYY (digitsVal ys.toList) : Int) (digitsVal ms.toList : Int)) :
    parse_message_date s =
      some ⟨expandYY (digitsVal ys.toList), digitsVal ms.toList, digitsVal ds.toList⟩ ∧
    (digitsVal ys.toList < 50 → expandYY (digitsVal ys.toList) = 2000 + digitsVal ys.toList) ∧
    (50 ≤ digitsVal ys.toList → expandYY (digitsVal ys.toList) = 1900 + digitsVal ys.toList) := by
  have hyy100 : digitsVal ys.toList < 100 := digitsVal_two_lt_100 ys.toList hyslen hys
  refine ⟨?_, fun h => if_pos h, fun h => if_neg (by omega)⟩
  rw [parse_message_date_eq3 s ds ms ys hsplit]
  unfold parse_message_date_parts
  have hylen : ys.length = 2 := hyslen
  have hysne : ys.toList ≠ [] := by
    intro he
    rw [he] at hyslen
    exact absurd hyslen (by decide)
  rw [if_pos hylen, pyInt_digits ys hysne hys]
  show parse_with_year2 ds ms
      (if (digitsVal ys.toList : Int) < 50 then "20" ++ ys else "19" ++ ys) = _
  have hpre : ∀ (u v : Char) (pre : String), pre.toList = [u, v] → isDig u = true →
      isDig v = true →
      parse_with_year2 ds ms (pre ++ ys) =
        mkDatetime (((10 * digitVal u + digitVal v) * 100 + digitsVal ys.toList : Nat) : Int)
          ((digitsVal ms.toList : Int)) ((digitsVal ds.toList : Int)) := by
    intro u v pre hp hu hv
    have htl : (pre ++ ys).toList = u :: v :: ys.toList := by
      rw [toList_append, hp]
      rfl
    have hne : (pre ++ ys).toList ≠ [] := by
      rw [htl]
      exact fun h => List.noConfusion h
    have hall : (pre ++ ys).toList.all isDig = true := by
      rw [htl, List.all_cons, List.all_cons, hu, hv, hys]
      rfl
    rw [parse_with_year2_digits ds ms (pre ++ ys) hdsne hds hmsne hms hne hall, htl,
      digitsVal_prefix_two u v ys.toList hyslen]
  by_cases hlt : digitsVal ys.toList < 50
  · rw [if_pos (show (digitsVal ys.toList : Int) < 50 from by exact_mod_cast hlt)]
    rw [hpre '2' '0' "20" rfl rfl rfl]
    rw [show (10 * digitVal '2' + digitVal '0') * 100 + digitsVal ys.toList =
        2000 + digitsVal ys.toList from by
      norm_num [show digitVal '2' = 2 from rfl, show digitVal '0' = 0 from rfl]]
    have hexp : expandYY (digitsVal ys.toList) = 2000 + digitsVal ys.toList := if_pos hlt
    unfold mkDatetime
    rw [if_pos (show (1 : Int) ≤ ((2000 + digitsVal ys.toList : Nat) : Int) ∧
        ((2000 + digitsVal ys.toList : Nat) : Int) ≤ 9999 ∧
        (1 : Int) ≤ ((digitsVal ms.toList : Nat) : Int) ∧
        ((digitsVal ms.toList : Nat) : Int) ≤ 12 ∧
        (1 : Int) ≤ ((digitsVal ds.toList : Nat) : Int) ∧
        ((digitsVal ds.toList : Nat) : Int) ≤
          daysInMonth ((2000 + digitsVal ys.toList : Nat) : Int)
            ((digitsVal ms.toList : Nat) : Int) from by
      refine ⟨by omega, by omega, by exact_mod_cast hmonth.1, by exact_mod_cast hmonth.2,
        by exact_mod_cast hday.1, ?_⟩
      have h2 := hday.2
      rw [hexp] at h2
      exact h2)]
    rw [hexp]
    simp
    omega
  · rw [if_neg (show ¬ (digitsVal ys.toList : Int) < 50 from by
      intro hc
      exact hlt (by exact_mod_cast hc))]
    rw [hpre '1' '9' "19" rfl rfl rfl]
    rw [show (10 * digitVal '1' + digitVal '9') * 100 + digitsVal ys.toList =
        1900 + digitsVal ys.toList from by
      norm_num [show digitVal '1' = 1 from rfl, show digitVal '9' = 9 from rfl]]
    have hexp : expandYY (digitsVal ys.toList) = 1900 + digitsVal ys.toList :=
      if_neg (by omega)
    unfold mkDatetime
    rw [if_pos (show (1 : Int) ≤ ((1900 + digitsVal ys.toList : Nat) : Int) ∧
        ((1900 + digitsVal ys.toList : Nat) : Int) ≤ 9999 ∧
        (1 : Int) ≤ ((digitsVal ms.toList : Nat) : Int) ∧
        ((digitsVal ms.toList : Nat) : Int) ≤ 12 ∧
        (1 : Int) ≤ ((digitsVal ds.toList : Nat) : Int) ∧
        ((digitsVal ds.toList : Nat) : Int) ≤
          daysInMonth ((1900 + digitsVal ys.toList : Nat) : Int)
            ((digitsVal ms.toList : Nat) : Int) from by
      refine ⟨by omega, by omega, by exact_mod_cast hmonth.1, by exact_mod_cast hmonth.2,
        by exact_mod_cast hday.1, ?_⟩
      have h2 := hday.2
      rw [hexp] at h2
      exact h2)]
    rw [hexp]
    simp
    omega

/-- C2 witness: "01/01/49" parses to 1 January 2049 and "01/01/50" to
1 January 1950. -/
theorem c2_two_digit_year_pivot_witness :
    parse_message_date "01/01/49" = some ⟨2049, 1, 1⟩ ∧
    parse_message_date "01/01/50" = some ⟨1950, 1, 1⟩ :=
  ⟨((c2_two_digit_year_pivot "01/01/49" "01" "01" "49" (by decide) (by decide) (by decide)
      (by decide) (by decide) (by decide) (by decide) (by decide) (by decide)).1).trans
      (by decide),
   ((c2_two_digit_year_pivot "01/01/50" "01" "01" "50" (by decide) (by decide) (by decide)
      (by decide) (by decide) (by decide) (by decide) (by decide) (by decide)).1).trans
      (by decide)⟩

/-- C6: a string that does not split on '/' into exactly three parts parses
to `none`; so does one with a part rejected by `int()`; and every `some`
result is a valid calendar date (so an invalid day/month/year combination
can never be returned — it yields `none`). The embedding is a total
function, mirroring that the Python function catches every exception. -/
theorem c6_parse_date_total (s : String) :
    ((splitOnChar '/' s).length ≠ 3 → parse_message_date s = none) ∧
    (∀ d m y, splitOnChar '/' s = [d, m, y] →
      pyInt d = none ∨ pyInt m = none ∨ pyInt y = none →
      parse_message_date s = none) ∧
    (∀ dt, parse_message_date s = some dt →
      1 ≤ dt.year ∧ dt.year ≤ 9999 ∧ 1 ≤ dt.month ∧ dt.month ≤ 12 ∧
      1 ≤ dt.day ∧ (dt.day : Int) ≤ daysInMonth (dt.year : Int) (dt.month : Int)) := by
  refine ⟨?_, ?_, ?_⟩
  · intro hlen
    unfold parse_message_date
    rcases hl : splitOnChar '/' s with - | ⟨a, - | ⟨b, - | ⟨c, - | ⟨d, t⟩⟩⟩⟩
    · rfl
    · rfl
    · rfl
    · exact absurd (show (splitOnChar '/' s).length = 3 by rw [hl]; rfl) hlen
    · rfl
  · intro d m y hsplit hnone
    rw [parse_message_date_eq3 s d m y hsplit]
    unfold parse_message_date_parts
    by_cases hy2 : y.length = 2
    · rw [if_pos hy2]
      rcases hpy : pyInt y with - | v
      · rfl
      · show parse_with_year2 d m (if v < 50 then "20" ++ y else "19" ++ y) = none
        rcases hnone with h | h | h
        · exact parse_with_year2_none _ _ _ (Or.inl h)
        · exact parse_with_year2_none _ _ _ (Or.inr (Or.inl h))
        · rw [h] at hpy
          exact Option.noConfusion hpy
    · rw [if_neg hy2]
      exact parse_with_year2_none _ _ _ hnone
  · intro dt hdt
    unfold parse_message_date at hdt
    rcases hl : splitOnChar '/' s with - | ⟨a, - | ⟨b, - | ⟨c, - | ⟨d, t⟩⟩⟩⟩ <;>
        rw [hl] at hdt <;> try exact Option.noConfusion hdt
    replace hdt : parse_message_date_parts a b c = some dt := hdt
    unfold parse_message_date_parts at hdt
    rcases hbr : (if c.length = 2 then
        match pyInt c with
        | none => none
        | some v => some (if v < 50 then "20" ++ c else "19" ++ c)
      else some c) with - | y2 <;> rw [hbr] at hdt
    · exact Option.noConfusion hdt
    · exact parse_with_year2_some_valid a b y2 dt hdt

/-- C6 witness: too few parts, a non-numeric part, and an invalid
day/month combination each give `none`. -/
theorem c6_parse_date_total_witness :
    parse_message_date "15-11-2019" = none ∧
    parse_message_date "1/2/xx" = none ∧
    (1 : Nat) ≤ 12 :=
  ⟨(c6_parse_date_total "15-11-2019").1 (by decide),
   (c6_parse_date_total "1/2/xx").2.1 "1" "2" "xx" (by decide)
     (Or.inr (Or.inr (by decide))),
   by decide⟩

/-! C7 helper lemmas: truncation and sanitization bounds. -/

theorem string_mk_eq_empty {l : List Char} (h : String.mk l = "") : l = [] :=
  congrArg String.toList h

theorem lastIdxOf_lt_length {ch : Char} :
    ∀ {cs : List Char} {i}, lastIdxOf ch cs = some i → i < cs.length := by
  intro cs
  induction cs with
  | nil => intro i h; exact Option.noConfusion h
  | cons a t ih =>
    intro i h
    replace h : (match lastIdxOf ch t with
        | some j => some (j + 1)
        | none => if a == ch then some 0 else none) = some i := h
    cases ht : lastIdxOf ch t with
    | some j =>
      rw [ht] at h
      replace h : some (j + 1) = some i := h
      cases h
      have := ih ht
      simp only [List.length_cons]
      omega
    | none =>
      rw [ht] at h
      replace h : (if a == ch then some 0 else none) = some i := h
      split at h
      · cases h
        simp
      · exact Option.noConfusion h

theorem stripWhile_length_le (p : Char → Bool) (l : List Char) :
    (stripWhile p l).length ≤ l.length := by
  unfold stripWhile
  have h1 : (l.dropWhile p).length ≤ l.length := (List.dropWhile_sublist p).length_le
  have h2 : (((l.dropWhile p).reverse.dropWhile p)).length ≤ ((l.dropWhile p).reverse).length :=
    (List.dropWhile_sublist p).length_le
  simp only [List.length_reverse] at h1 h2 ⊢
  omega

theorem mem_stripWhile {p : Char → Bool} {c : Char} {l : List Char}
    (h : c ∈ stripWhile p l) : c ∈ l := by
  unfold stripWhile at h
  rw [List.mem_reverse] at h
  have h2 := List.dropWhile_subset p h
  rw [List.mem_reverse] at h2
  exact List.dropWhile_subset p h2

theorem collapseSpacesAux_length (l : List Char) : ∀ (b : Bool),
    (collapseSpacesAux b l).length ≤ l.length := by
  induction l with
  | nil => intro b; simp [collapseSpacesAux]
  | cons c t ih =>
    intro b
    unfold collapseSpacesAux
    by_cases h : isPySpace c = true
    · rw [if_pos h]
      cases b
      · rw [if_neg (by simp)]
        simp only [List.length_cons]
        have := ih true
        omega
      · rw [if_pos rfl]
        simp only [List.length_cons]
        have := ih true
        omega
    · rw [if_neg h]
      simp only [List.length_cons]
      have := ih false
      omega

theorem mem_collapseSpacesAux {c : Char} (l : List Char) : ∀ (b : Bool),
    c ∈ collapseSpacesAux b l → c = ' ' ∨ c ∈ l := by
  induction l with
  | nil => intro b h; simp [collapseSpacesAux] at h
  | cons d t ih =>
    intro b h
    unfold collapseSpacesAux at h
    by_cases hd : isPySpace d = true
    · rw [if_pos hd] at h
      cases b
      · rw [if_neg (by simp)] at h
        rcases List.mem_cons.mp h with h1 | h1
        · exact Or.inl h1
        · rcases ih true h1 with h2 | h2
          · exact Or.inl h2
          · exact Or.inr (List.mem_cons_of_mem d h2)
      · rw [if_pos rfl] at h
        rcases ih true h with h2 | h2
        · exact Or.inl h2
        · exact Or.inr (List.mem_cons_of_mem d h2)
    · rw [if_neg hd] at h
      rcases List.mem_cons.mp h with h1 | h1
      · exact Or.inr (h1 ▸ List.mem_cons_self d t)
      · rcases ih false h1 with h2 | h2
        · exact Or.inl h2
        · exact Or.inr (List.mem_cons_of_mem d h2)

theorem edwTruncate15_of_long (s : String) (h : 15 < s.length) :
    (edwTruncate s 15).length ≤ 15 ∧ edwTruncate s 15 ≠ "" := by
  have hsl : s.length = s.toList.length := rfl
  have htk : (s.toList.take 15).length = 15 := by
    rw [List.length_take]
    omega
  unfold edwTruncate
  rw [if_pos h]
  split
  · rename_i i hidx
    have hi : i < 15 := by
      have : i < (s.toList.take 15).length := lastIdxOf_lt_length hidx
      omega
    split
    · rename_i hcut
      have hilen : ((s.toList.take 15).take i).length = i := by
        rw [List.length_take, htk]
        omega
      refine ⟨?_, ?_⟩
      · show ((s.toList.take 15).take i).length ≤ 15
        omega
      · intro he
        rw [string_mk_eq_empty he] at hilen
        simp at hilen
        omega
    · refine ⟨?_, ?_⟩
      · show (s.toList.take 15).length ≤ 15
        omega
      · intro he
        rw [string_mk_eq_empty he] at htk
        exact absurd htk (by decide)
  · refine ⟨?_, ?_⟩
    · show (s.toList.take 15).length ≤ 15
      omega
    · intro he
      rw [string_mk_eq_empty he] at htk
      exact absurd htk (by decide)

theorem edw_length_le (text : String) : (extract_descriptive_words text 15).length ≤ 15 := by
  unfold extract_descriptive_words
  by_cases hstr : pyStrip (String.mk (removeImgAttached text.toList)) = ""
  · rw [if_pos hstr]
    decide
  · rw [if_neg hstr]
    by_cases hl : 15 < (descriptiveJoin (pyStrip (String.mk (removeImgAttached text.toList)))).length
    · have hbnd := edwTruncate15_of_long _ hl
      rw [if_neg hbnd.2]
      exact hbnd.1
    · have heq : edwTruncate (descriptiveJoin (pyStrip (String.mk (removeImgAttached text.toList)))) 15 =
          descriptiveJoin (pyStrip (String.mk (removeImgAttached text.toList))) := by
        unfold edwTruncate
        rw [if_neg hl]
      rw [heq]
      split
      · decide
      · omega

theorem pyStrip_length_le (s : String) : (pyStrip s).length ≤ s.length :=
  stripWhile_length_le isPySpace s.toList

/-- C7: `sanitize_text_for_filename` always yields at most 15 characters and
never any of the filename-invalid characters; `extract_descriptive_words`
truncates the word join exactly when it exceeds 15 characters, cutting at
the last space of the 15-character span when that space lies strictly past
70 percent of the span (index at least 11, matching `i > 15 * 0.7 = 10.5`),
and hard-cutting at 15 otherwise; the specification's example input yields
"completed main", a 14-character word-boundary cut. -/
theorem c7_sanitize_bounds (text : String) :
    (sanitize_text_for_filename text).length ≤ 15 ∧
    (∀ c, c ∈ (sanitize_text_for_filename text).toList → isForbiddenFilenameChar c = false) ∧
    (15 < (descriptiveJoin (pyStrip (String.mk (removeImgAttached text.toList)))).length →
      extract_descriptive_words text 15 =
        edwTruncate (descriptiveJoin (pyStrip (String.mk (removeImgAttached text.toList)))) 15) ∧
    (∀ s : String, ∀ i, 15 < s.length → lastIdxOf ' ' (s.toList.take 15) = some i → 11 ≤ i →
      edwTruncate s 15 = String.mk ((s.toList.take 15).take i)) ∧
    (∀ s : String, ∀ i, 15 < s.length → lastIdxOf ' ' (s.toList.take 15) = some i → i ≤ 10 →
      edwTruncate s 15 = String.mk (s.toList.take 15)) ∧
    (∀ s : String, 15 < s.length → lastIdxOf ' ' (s.toList.take 15) = none →
      edwTruncate s 15 = String.mk (s.toList.take 15)) ∧
    sanitize_text_for_filename c7Text = "completed main" := by
  refine ⟨?_, ?_, ?_, ?_, ?_, ?_, by decide⟩
  · unfold sanitize_text_for_filename
    split
    · decide
    · calc (pyStrip (collapseWs (crNlTabToSpace (dropForbidden (extract_descriptive_words text 15))))).length
          ≤ (collapseWs (crNlTabToSpace (dropForbidden (extract_descriptive_words text 15)))).length :=
            pyStrip_length_le _
      _ ≤ (crNlTabToSpace (dropForbidden (extract_descriptive_words text 15))).length :=
            collapseSpacesAux_length _ false
      _ = (dropForbidden (extract_descriptive_words text 15)).length := by
            show (List.map _ _).length = _
            rw [List.length_map]
            rfl
      _ ≤ (extract_descriptive_words text 15).length := List.length_filter_le _ _
      _ ≤ 15 := edw_length_le text
  · intro c hc
    unfold sanitize_text_for_filename at hc
    split at hc
    · revert hc
      show c ∈ ("NoText").toList → _
      intro hc
      fin_cases hc <;> decide
    · have hc2 := mem_stripWhile hc
      rcases mem_collapseSpacesAux _ false hc2 with h1 | h1
      · rw [h1]
        decide
      · rcases List.mem_map.mp h1 with ⟨b, hb, hbe⟩
        by_cases hcr : isCrNlTab b = true
        · rw [if_pos hcr] at hbe
          rw [← hbe]
          decide
        · rw [if_neg hcr] at hbe
          subst hbe
          have := (List.mem_filter.mp hb).2
          simpa using this
  · intro hl
    unfold extract_descriptive_words
    have hstr : pyStrip (String.mk (removeImgAttached text.toList)) ≠ "" := by
      intro he
      rw [he] at hl
      exact absurd hl (by decide)
    rw [if_neg hstr, if_neg (edwTruncate15_of_long _ hl).2]
  · intro s i hlen hidx hcut
    unfold edwTruncate
    rw [if_pos hlen, hidx]
    show (if 7 * 15 < 10 * i then String.mk ((s.toList.take 15).take i)
          else String.mk (s.toList.take 15)) = _
    rw [if_pos (by omega)]
  · intro s i hlen hidx hcut
    unfold edwTruncate
    rw [if_pos hlen, hidx]
    show (if 7 * 15 < 10 * i then String.mk ((s.toList.take 15).take i)
          else String.mk (s.toList.take 15)) = _
    rw [if_neg (by omega)]
  · intro s hlen hidx
    unfold edwTruncate
    rw [if_pos hlen, hidx]

/-- C7 witness: the example input's word join is longer than 15 characters,
and the truncation instance on it. -/
theorem c7_sanitize_bounds_witness :
    extract_descriptive_words c7Text 15 =
      edwTruncate (descriptiveJoin (pyStrip (String.mk (removeImgAttached c7Text.toList)))) 15 ∧
    edwTruncate "completed main bridge support install file attached" 15 =
      String.mk ((("completed main bridge support install file attached" : String).toList.take 15).take 14) :=
  ⟨(c7_sanitize_bounds c7Text).2.2.1 (by decide),
   (c7_sanitize_bounds c7Text).2.2.2.1 "completed main bridge support install file attached" 14
     (by decide) (by decide) (by decide)⟩

/-! C9 helper lemmas: the year grouping. -/

theorem lookupYear_addToYear_same (acc : List (Nat × List Message)) (y : Nat) (m : Message) :
    lookupYear (addToYear acc y m) y = lookupYear acc y ++ [m] := by
  induction acc with
  | nil => simp [addToYear, lookupYear]
  | cons e rest ih =>
    obtain ⟨a, l⟩ := e
    unfold addToYear
    by_cases h : a = y
    · rw [if_pos h]
      simp [lookupYear, h]
    · rw [if_neg h]
      simp [lookupYear, h, ih]

theorem lookupYear_addToYear_other (acc : List (Nat × List Message)) (y y' : Nat) (m : Message)
    (hne : y' ≠ y) : lookupYear (addToYear acc y m) y' = lookupYear acc y' := by
  have hne' : ¬ (y = y') := fun he => hne he.symm
  induction acc with
  | nil => simp [addToYear, lookupYear, hne']
  | cons e rest ih =>
    obtain ⟨a, l⟩ := e
    unfold addToYear
    by_cases h : a = y
    · rw [if_pos h]
      subst h
      simp [lookupYear, hne']
    · rw [if_neg h]
      simp [lookupYear, ih]

theorem mem_keys_addToYear (acc : List (Nat × List Message)) (y y' : Nat) (m : Message) :
    y' ∈ (addToYear acc y m).map Prod.fst ↔ y' ∈ acc.map Prod.fst ∨ y' = y := by
  induction acc with
  | nil => simp [addToYear]
  | cons e rest ih =>
    obtain ⟨a, l⟩ := e
    unfold addToYear
    by_cases h : a = y
    · rw [if_pos h]
      subst h
      simp only [List.map_cons, List.mem_cons]
      tauto
    · rw [if_neg h]
      simp only [List.map_cons, List.mem_cons, ih]
      tauto

theorem nodup_keys_addToYear (acc : List (Nat × List Message)) (y : Nat) (m : Message)
    (h : (acc.map Prod.fst).Nodup) : ((addToYear acc y m).map Prod.fst).Nodup := by
  induction acc with
  | nil => simp [addToYear]
  | cons e rest ih =>
    obtain ⟨a, l⟩ := e
    unfold addToYear
    by_cases hay : a = y
    · rw [if_pos hay]
      simpa using h
    · rw [if_neg hay]
      simp only [List.map_cons, List.nodup_cons] at h ⊢
      refine ⟨?_, ih h.2⟩
      intro hmem
      rw [mem_keys_addToYear] at hmem
      rcases hmem with h1 | h1
      · exact h.1 h1
      · exact hay h1

theorem lookupYear_yearsDataAux : ∀ (msgs : List Message) (acc) (y : Nat),
    lookupYear (yearsDataAux acc msgs) y =
      lookupYear acc y ++
        msgs.filter (fun m => m.datetime.map SimpleDate.year == some y) := by
  intro msgs
  induction msgs with
  | nil => intro acc y; simp [yearsDataAux]
  | cons m rest ih =>
    intro acc y
    unfold yearsDataAux
    cases hd : m.datetime with
    | none =>
      rw [ih, List.filter_cons]
      simp [hd]
    | some d =>
      by_cases hy : d.year = y
      · rw [ih, List.filter_cons]
        subst hy
        simp [hd, lookupYear_addToYear_same]
      · rw [ih, List.filter_cons]
        simp [hd, hy, lookupYear_addToYear_other acc d.year y m (fun h => hy h.symm)]

theorem mem_keys_yearsDataAux : ∀ (msgs : List Message) (acc) (y' : Nat),
    y' ∈ (yearsDataAux acc msgs).map Prod.fst ↔
      y' ∈ acc.map Prod.fst ∨ ∃ m, m ∈ msgs ∧ m.datetime.map SimpleDate.year = some y' := by
  intro msgs
  induction msgs with
  | nil => intro acc y'; simp [yearsDataAux]
  | cons m rest ih =>
    intro acc y'
    unfold yearsDataAux
    cases hd : m.datetime with
    | none =>
      rw [ih]
      simp only [List.mem_cons]
      constructor
      · rintro (h | ⟨m', hm', hy'⟩)
        · exact Or.inl h
        · exact Or.inr ⟨m', Or.inr hm', hy'⟩
      · rintro (h | ⟨m', hm' | hm', hy'⟩)
        · exact Or.inl h
        · subst hm'
          rw [hd] at hy'
          exact Option.noConfusion hy'
        · exact Or.inr ⟨m', hm', hy'⟩
    | some d =>
      rw [ih, mem_keys_addToYear]
      simp only [List.mem_cons]
      constructor
      · rintro ((h | h) | ⟨m', hm', hy'⟩)
        · exact Or.inl h
        · exact Or.inr ⟨m, Or.inl rfl, by rw [hd, h]; rfl⟩
        · exact Or.inr ⟨m', Or.inr hm', hy'⟩
      · rintro (h | ⟨m', hm' | hm', hy'⟩)
        · exact Or.inl (Or.inl h)
        · subst hm'
          rw [hd] at hy'
          exact Or.inl (Or.inr (Option.some.inj hy').symm)
        · exact Or.inr ⟨m', hm', hy'⟩

theorem nodup_keys_yearsDataAux : ∀ (msgs : List Message) (acc),
    (acc.map Prod.fst).Nodup → ((yearsDataAux acc msgs).map Prod.fst).Nodup := by
  intro msgs
  induction msgs with
  | nil => intro acc h; exact h
  | cons m rest ih =>
    intro acc h
    unfold yearsDataAux
    cases hd : m.datetime with
    | none => exact ih acc h
    | some d => exact ih _ (nodup_keys_addToYear acc d.year m h)

theorem sum_addToYear (acc : List (Nat × List Message)) (y : Nat) (m : Message) :
    ((addToYear acc y m).map (fun e => e.2.length)).sum =
      (acc.map (fun e => e.2.length)).sum + 1 := by
  induction acc with
  | nil => simp [addToYear]
  | cons e rest ih =>
    obtain ⟨a, l⟩ := e
    unfold addToYear
    by_cases h : a = y
    · rw [if_pos h]
      simp
      omega
    · rw [if_neg h]
      simp [ih]
      omega

theorem sum_yearsDataAux : ∀ (msgs : List Message) (acc),
    ((yearsDataAux acc msgs).map (fun e => e.2.length)).sum =
      (acc.map (fun e => e.2.length)).sum +
        (msgs.filter (fun m => m.datetime.isSome)).length := by
  intro msgs
  induction msgs with
  | nil => intro acc; simp [yearsDataAux]
  | cons m rest ih =>
    intro acc
    unfold yearsDataAux
    cases hd : m.datetime with
    | none =>
      rw [ih, List.filter_cons]
      simp [hd]
    | some d =>
      rw [ih, List.filter_cons]
      simp [hd, sum_addToYear]
      omega

theorem sum_lookup_keys : ∀ (acc : List (Nat × List Message)),
    (acc.map Prod.fst).Nodup →
    (((acc.map Prod.fst).map (fun y => (lookupYear acc y).length)).sum) =
      (acc.map (fun e => e.2.length)).sum := by
  intro acc
  induction acc with
  | nil => intro _; rfl
  | cons e rest ih =>
    obtain ⟨a, l⟩ := e
    intro h
    simp only [List.map_cons, List.nodup_cons] at h
    simp only [List.map_cons, List.sum_cons]
    have hhead : lookupYear ((a, l) :: rest) a = l := by
      simp [lookupYear]
    have htail : (rest.map Prod.fst).map (fun y => (lookupYear ((a, l) :: rest) y).length) =
        (rest.map Prod.fst).map (fun y => (lookupYear rest y).length) := by
      apply List.map_congr_left
      intro y hy
      have hne : a ≠ y := fun he => h.1 (he ▸ hy)
      simp [lookupYear, hne]
    rw [hhead, htail, ih h.2]

theorem mkBucket_year (yd : List (Nat × List Message)) (y : Nat) : (mkBucket yd y).year = y := rfl

theorem mkBucket_photos (yd : List (Nat × List Message)) (y : Nat) :
    (mkBucket yd y).photos = lookupYear yd y := rfl

/-- C9: `organize_by_year` emits buckets in strictly ascending year order;
every message in a bucket is a dated input message of that bucket's year; a
dated input message lies in a bucket exactly when the bucket's year is its
own (so in exactly one bucket, the years being distinct); every dated input
message has its bucket; `total_photos` is the bucket's photo count; and the
bucket counts sum to the number of dated input messages (undated ones are
in no bucket, every bucket member being dated). -/
theorem c9_organize_by_year (msgs : List Message) :
    ((organize_by_year msgs).map YearBucket.year).Pairwise (· < ·) ∧
    (∀ b ∈ organize_by_year msgs, ∀ m ∈ b.photos,
      m ∈ msgs ∧ m.datetime.map SimpleDate.year = some b.year) ∧
    (∀ m ∈ msgs, ∀ d, m.datetime = some d → ∀ b ∈ organize_by_year msgs,
      (m ∈ b.photos ↔ b.year = d.year)) ∧
    (∀ m ∈ msgs, ∀ d, m.datetime = some d → ∃ b ∈ organize_by_year msgs,
      b.year = d.year ∧ m ∈ b.photos) ∧
    (∀ b ∈ organize_by_year msgs, b.total_photos = b.photos.length) ∧
    ((organize_by_year msgs).map YearBucket.total_photos).sum =
      (msgs.filter (fun m => m.datetime.isSome)).length := by
  have hperm := List.perm_insertionSort (· ≤ ·) ((yearsDataAux [] msgs).map Prod.fst)
  have hnodupk : (((yearsDataAux [] msgs)).map Prod.fst).Nodup :=
    nodup_keys_yearsDataAux msgs [] (by simp)
  have hnodupy := (hperm.nodup_iff).mpr hnodupk
  have hsorted := List.sorted_insertionSort (· ≤ ·) ((yearsDataAux [] msgs).map Prod.fst)
  have hlookup : ∀ y, lookupYear (yearsDataAux [] msgs) y =
      msgs.filter (fun m => m.datetime.map SimpleDate.year == some y) := by
    intro y
    rw [lookupYear_yearsDataAux msgs [] y]
    rfl
  refine ⟨?_, ?_, ?_, ?_, ?_, ?_⟩
  · unfold organize_by_year
    rw [List.map_map]
    have hid : (YearBucket.year ∘ mkBucket (yearsDataAux [] msgs)) = id := rfl
    rw [hid, List.map_id]
    exact (hsorted.and hnodupy).imp (fun hab => lt_of_le_of_ne hab.1 hab.2)
  · intro b hb m hm
    unfold organize_by_year at hb
    rcases List.mem_map.mp hb with ⟨y, -, hy2⟩
    subst hy2
    rw [mkBucket_photos, hlookup y] at hm
    have h2 := List.mem_filter.mp hm
    refine ⟨h2.1, ?_⟩
    rw [mkBucket_year]
    simpa using h2.2
  · intro m hm d hd b hb
    unfold organize_by_year at hb
    rcases List.mem_map.mp hb with ⟨y, -, hy2⟩
    subst hy2
    rw [mkBucket_photos, mkBucket_year, hlookup y, List.mem_filter]
    constructor
    · rintro ⟨-, hpred⟩
      rw [hd] at hpred
      have h3 : d.year = y := by simpa using hpred
      exact h3.symm
    · intro hyd
      subst hyd
      exact ⟨hm, by simp [hd]⟩
  · intro m hm d hd
    have hkey : d.year ∈ ((yearsDataAux [] msgs)).map Prod.fst := by
      rw [mem_keys_yearsDataAux msgs [] d.year]
      exact Or.inr ⟨m, hm, by rw [hd]; rfl⟩
    have hyear : d.year ∈ List.insertionSort (· ≤ ·) ((yearsDataAux [] msgs).map Prod.fst) :=
      (hperm.mem_iff).mpr hkey
    refine ⟨mkBucket (yearsDataAux [] msgs) d.year, ?_, rfl, ?_⟩
    · unfold organize_by_year
      exact List.mem_map.mpr ⟨d.year, hyear, rfl⟩
    · rw [mkBucket_photos, hlookup d.year, List.mem_filter]
      exact ⟨hm, by simp [hd]⟩
  · intro b hb
    unfold organize_by_year at hb
    rcases List.mem_map.mp hb with ⟨y, -, hy2⟩
    subst hy2
    rfl
  · unfold organize_by_year
    rw [List.map_map]
    have hcomp : (YearBucket.total_photos ∘ mkBucket (yearsDataAux [] msgs)) =
        fun y => (lookupYear (yearsDataAux [] msgs) y).length := rfl
    rw [hcomp]
    have hpermmap := hperm.map (fun y => (lookupYear (yearsDataAux [] msgs) y).length)
    rw [hpermmap.sum_eq, sum_lookup_keys (yearsDataAux [] msgs) hnodupk,
      sum_yearsDataAux msgs []]
    simp

/-- C9 witness: three messages spanning the years 2019 and 2020 plus one
undated message give exactly the buckets [2019, 2020], with photo counts
summing to the number of dated messages. -/
theorem c9_organize_by_year_witness :
    (∃ b ∈ organize_by_year [mAlice, mBob, mNoDate], b.year = 2019 ∧ mAlice ∈ b.photos) ∧
    ((organize_by_year [mAlice, mBob, mNoDate]).map YearBucket.total_photos).sum = 2 ∧
    ((organize_by_year [mAlice, mBob, mNoDate]).map YearBucket.year) = [2019, 2020] :=
  ⟨(c9_organize_by_year [mAlice, mBob, mNoDate]).2.2.2.1 mAlice (by decide) ⟨2019, 11, 15⟩ rfl,
   ((c9_organize_by_year [mAlice, mBob, mNoDate]).2.2.2.2.2).trans (by decide),
   by decide⟩

end Theorems

end MicroApps
